import Mathlib

/-!
Verification of the per-frame animation and physics update of the
roller-coaster camera ride (AnimationService in
src/app/animation/animation.service.ts).

The embedding works over the real numbers: every JavaScript float value is
modelled as a real, Math.sin / Math.cos / Math.sqrt become Real.sin /
Real.cos / Real.sqrt, and the JavaScript remainder operator x % 1 becomes
jsMod1 below (sign of the dividend, fractional part for non-negative
inputs).

The curve object built by createParametricCurve captures two shared scratch
vectors (called vector and vector2 in the source).  getPointAt writes its
result into the first buffer and returns a reference to it; getTangentAt
copies into the second buffer, calls getPointAt twice (overwriting the
first buffer), normalizes in place and returns a reference to the second
buffer.  The embedding therefore threads an explicit buffer state CState
through every call, and a caller that kept the reference returned by
getPointAt observes the current content of the first buffer, not the value
at the time of the call.

The three.js vector operations used by the source are embedded with their
library semantics; in particular Vector3.normalize divides by
(length() or 1), so the zero vector normalizes to the zero vector instead
of producing a division by zero.
-/

@[ext]
structure Vec3 where
  x : ℝ
  y : ℝ
  z : ℝ

def Vec3.add (a b : Vec3) : Vec3 := ⟨a.x + b.x, a.y + b.y, a.z + b.z⟩

def Vec3.sub (a b : Vec3) : Vec3 := ⟨a.x - b.x, a.y - b.y, a.z - b.z⟩

def Vec3.multiplyScalar (v : Vec3) (c : ℝ) : Vec3 := ⟨v.x * c, v.y * c, v.z * c⟩

/-- Cross product with the component layout used by three.js crossVectors. -/
def Vec3.cross (a b : Vec3) : Vec3 :=
  ⟨a.y * b.z - a.z * b.y, a.z * b.x - a.x * b.z, a.x * b.y - a.y * b.x⟩

noncomputable def Vec3.length (v : Vec3) : ℝ :=
  Real.sqrt (v.x * v.x + v.y * v.y + v.z * v.z)

/-- three.js Vector3.normalize: divideScalar of (length() or 1), so a
zero-length vector is left unchanged rather than divided by zero. -/
noncomputable def Vec3.normalize (v : Vec3) : Vec3 :=
  v.multiplyScalar (1 / (if v.length = 0 then 1 else v.length))

/-- JavaScript remainder x % 1: fractional part for a non-negative
dividend, negated fractional part of the negation otherwise. -/
noncomputable def jsMod1 (x : ℝ) : ℝ :=
  if 0 ≤ x then Int.fract x else -Int.fract (-x)

/- Constants of the CONFIG object that the update routine reads. -/

def CURVE_SCALE : ℝ := 2.5

def INITIAL_VELOCITY : ℝ := 0.0002

def MIN_VELOCITY : ℝ := 0.00005

def MAX_VELOCITY : ℝ := 0.004

def GRAVITY_FACTOR : ℝ := 0.000003

def VELOCITY_DAMPING : ℝ := 0.995

def FIXED_DELTA_TIME : ℝ := 16

/-- Closed-form path position of createParametricCurve.getPointAt:
angle = t * (PI * 2), harmonic combination per axit, scaled by
CURVE_SCALE via multiplyScalar. -/
noncomputable def ferrariPoint (t : ℝ) : Vec3 :=
  Vec3.multiplyScalar
    ⟨Real.sin (t * (Real.pi * 2) * 2) * Real.cos (t * (Real.pi * 2) * 3) * 60,
     Real.sin (t * (Real.pi * 2) * 4) * 8 + Real.cos (t * (Real.pi * 2) * 8) * 4 + 15,
     Real.sin (t * (Real.pi * 2) * 1.5) * Real.cos (t * (Real.pi * 2) * 2) * 60⟩
    CURVE_SCALE

/-- Lower lookup parameter of getTangentAt: max(0, t - delta), delta = 0.0001. -/
noncomputable def t1of (t : ℝ) : ℝ := max 0 (t - 0.0001)

/-- Upper lookup parameter of getTangentAt: min(1, t + delta), delta = 0.0001. -/
noncomputable def t2of (t : ℝ) : ℝ := min 1 (t + 0.0001)

/-- Value computed by getTangentAt for a path position function P:
normalized central finite difference between the clamped lookups. -/
noncomputable def tangentOf (P : ℝ → Vec3) (t : ℝ) : Vec3 :=
  Vec3.normalize (Vec3.sub (P (t2of t)) (P (t1of t)))

/-- The two scratch buffers captured by the curve closure: b1 is the vector
written by getPointAt, b2 the vector written by getTangentAt. -/
structure CState where
  b1 : Vec3
  b2 : Vec3

/-- getPointAt with explicit buffer state: writes P t into the first buffer
and returns its value; the caller keeps a reference to the buffer, so any
later read of that reference goes through the CState. -/
noncomputable def getPointAtS (P : ℝ → Vec3) (t : ℝ) (cs : CState) : Vec3 × CState :=
  (P t, { cs with b1 := P t })

/-- getTangentAt with explicit buffer state, mirroring the source
statement by statement: copy getPointAt of the upper lookup into the
second buffer, subtract getPointAt of the lower lookup, normalize in
place.  The first buffer is left holding the lower lookup position. -/
noncomputable def getTangentAtS (P : ℝ → Vec3) (t : ℝ) (cs : CState) : Vec3 × CState :=
  let r1 := getPointAtS P (t2of t) cs
  let c1 := r1.1
  let r2 := getPointAtS P (t1of t) r1.2
  let d := Vec3.sub c1 r2.1
  let n := Vec3.normalize d
  (n, { r2.2 with b2 := n })

/-- Persistent simulation and renderer-facing state touched by the
per-frame update: progress and velocity scalars, the steering input
mouseX, the camera position and look-at target, and the vehicle transform
(position plus the orthonormal basis passed to makeBasis) guarded by the
carLoaded flag. -/
structure SimState where
  progress : ℝ
  velocity : ℝ
  mouseX : ℝ
  camPos : Vec3
  camLook : Vec3
  carLoaded : Bool
  carPos : Vec3
  carRight : Vec3
  carUpV : Vec3
  carForward : Vec3

/-- setMouseX: stores the normalized pointer coordinate without any
clamping. -/
def setMouseX (v : ℝ) (s : SimState) : SimState := { s with mouseX := v }

/-- updateCameraPosition, statement by statement.  position and tangent in
the source are references to the closure buffers, so every later read of
them goes through the buffer state produced by the two sampling calls; in
particular the camera is placed relative to the first buffer, which after
getTangentAt holds the path point at the lower clamped lookup, not at the
new progress value. -/
noncomputable def updateCameraPosition (P : ℝ → Vec3) (s : SimState) (cs : CState) :
    SimState × CState :=
  let p := jsMod1 (s.progress + s.velocity)
  let r1 := getPointAtS P p cs
  let r2 := getTangentAtS P p r1.2
  let cs2 := r2.2
  let slopeEffect := -cs2.b2.y
  let acceleration := slopeEffect * GRAVITY_FACTOR * FIXED_DELTA_TIME
  let v1 := (s.velocity + acceleration) * VELOCITY_DAMPING
  let v2 := max MIN_VELOCITY (min MAX_VELOCITY v1)
  let cameraOffset := Vec3.add (Vec3.multiplyScalar cs2.b2 (-1.5)) ⟨0, 1, 0⟩
  let camPos0 := Vec3.add cs2.b1 cameraOffset
  let mouseOffsetX := (s.mouseX - 0.5) * 20
  let camPos1 : Vec3 := ⟨camPos0.x + mouseOffsetX, camPos0.y, camPos0.z⟩
  let b2n := Vec3.multiplyScalar cs2.b2 5
  let lookAhead := Vec3.add cs2.b1 b2n
  ({ s with progress := p, velocity := v2, camPos := camPos1, camLook := lookAhead },
   { b1 := cs2.b1, b2 := b2n })

/-- updateCarPosition: early return while the vehicle asset is absent;
otherwise sample the curve at the current progress, place the vehicle
relative to the first buffer (again the lower clamped lookup after
getTangentAt), lift it by 0.2, and build the orthonormal basis passed to
makeBasis.  rotateY(0) in the source is the identity and is omitted. -/
noncomputable def updateCarPosition (P : ℝ → Vec3) (s : SimState) (cs : CState) :
    SimState × CState :=
  if s.carLoaded then
    let r1 := getPointAtS P s.progress cs
    let r2 := getTangentAtS P s.progress r1.2
    let cs2 := r2.2
    let carPos0 := cs2.b1
    let carPos1 : Vec3 := ⟨carPos0.x, carPos0.y + 0.2, carPos0.z⟩
    let forward := Vec3.normalize cs2.b2
    let upv : Vec3 := ⟨0, 1, 0⟩
    let right := Vec3.normalize (Vec3.cross upv forward)
    let carUp := Vec3.normalize (Vec3.cross forward right)
    ({ s with carPos := carPos1, carRight := right, carUpV := carUp, carForward := forward },
     cs2)
  else (s, cs)

/-- One animation frame as far as simulation state is concerned:
updateCameraPosition followed by updateCarPosition (the mixer update and
the render call do not touch this state). -/
noncomputable def frame (P : ℝ → Vec3) (sc : SimState × CState) : SimState × CState :=
  let a := updateCameraPosition P sc.1 sc.2
  updateCarPosition P a.1 a.2

/-- n animation frames. -/
noncomputable def advance (P : ℝ → Vec3) : ℕ → SimState × CState → SimState × CState
  | 0, sc => sc
  | n + 1, sc => frame P (advance P n sc)

/- Teardown model for dispose (claim C9).  The fields mirror the service
fields that dispose touches: the requestAnimationFrame handle, the lists
of tracked geometries and materials, and the flags recording that a
renderer and a scene exist after initialization.  pending records whether
the host scheduler still holds a queued frame callback; cancelAnimationFrame
clears it. -/

structure DState where
  animationId : ℕ
  pending : Bool
  geoms : List ℕ
  mats : List ℕ
  hasRenderer : Bool
  hasScene : Bool
deriving DecidableEq

/-- External release calls emitted by dispose, in order. -/
inductive DAction where
  | cancelFrame (id : ℕ)
  | disposeGeom (g : ℕ)
  | disposeMat (m : ℕ)
  | disposeRenderer
  | forceContextLoss
  | clearScene
deriving DecidableEq

/-- dispose, statement by statement: cancel the pending frame when the
handle is nonzero and zero the handle, release and clear the geometry and
material lists, then dispose the renderer and clear the scene when
present (these collaborator objects stay referenced, so the flags do not
change). -/
def dispose (s : DState) : DState × List DAction :=
  ({ animationId := if s.animationId ≠ 0 then 0 else s.animationId,
     pending := if s.animationId ≠ 0 then false else s.pending,
     geoms := [],
     mats := [],
     hasRenderer := s.hasRenderer,
     hasScene := s.hasScene },
   (if s.animationId ≠ 0 then [DAction.cancelFrame s.animationId] else [])
     ++ s.geoms.map DAction.disposeGeom
     ++ s.mats.map DAction.disposeMat
     ++ (if s.hasRenderer then [DAction.disposeRenderer, DAction.forceContextLoss] else [])
     ++ (if s.hasScene then [DAction.clearScene] else []))

/-- Service state right after initialize: no frame requested yet, the
three track geometries and materials plus the ground pair are tracked,
renderer and scene exist. -/
def initSvcState : DState :=
  { animationId := 0, pending := false,
    geoms := [1, 2, 3, 4], mats := [1, 2, 3, 4],
    hasRenderer := true, hasScene := true }

/-- One run of the animate callback as far as scheduling state goes: it
requests the next frame, storing the fresh nonzero handle. -/
def animateStep (id : ℕ) (s : DState) : DState :=
  { s with animationId := id, pending := true }

/-- States of the service reachable after initialize, any number of
animation frames, and any number of dispose calls. -/
inductive ReachSvc : DState → Prop
  | base : ReachSvc initSvcState
  | step (id : ℕ) (s : DState) : id ≠ 0 → ReachSvc s → ReachSvc (animateStep id s)
  | teardown (s : DState) : ReachSvc s → ReachSvc (dispose s).1

/- General lemmas about the embedded operations. -/

theorem jsMod1_of_nonneg (x : ℝ) (h : 0 ≤ x) : jsMod1 x = Int.fract x := by
  simp [jsMod1, h]

theorem jsMod1_eq_self (x : ℝ) (h0 : 0 ≤ x) (h1 : x < 1) : jsMod1 x = x := by
  rw [jsMod1_of_nonneg x h0]
  exact Int.fract_eq_self.mpr ⟨h0, h1⟩

theorem jsMod1_mem_Ico (x : ℝ) (h : 0 ≤ x) : 0 ≤ jsMod1 x ∧ jsMod1 x < 1 := by
  rw [jsMod1_of_nonneg x h]
  exact ⟨Int.fract_nonneg x, Int.fract_lt_one x⟩

/-- getTangentAt computes the normalized clamped central difference and
leaves the first buffer holding the lower lookup position. -/
theorem getTangentAtS_eq (P : ℝ → Vec3) (t : ℝ) (cs : CState) :
    getTangentAtS P t cs = (tangentOf P t, ⟨P (t1of t), tangentOf P t⟩) := rfl

theorem Vec3.length_nonneg (v : Vec3) : 0 ≤ v.length := Real.sqrt_nonneg _

theorem Vec3.length_eq_zero_iff (v : Vec3) : v.length = 0 ↔ v = ⟨0, 0, 0⟩ := by
  constructor
  · intro h
    have hsum : v.x * v.x + v.y * v.y + v.z * v.z ≤ 0 := Real.sqrt_eq_zero'.mp h
    have hx : v.x = 0 := by nlinarith [mul_self_nonneg v.x, mul_self_nonneg v.y, mul_self_nonneg v.z]
    have hy : v.y = 0 := by nlinarith [mul_self_nonneg v.x, mul_self_nonneg v.y, mul_self_nonneg v.z]
    have hz : v.z = 0 := by nlinarith [mul_self_nonneg v.x, mul_self_nonneg v.y, mul_self_nonneg v.z]
    ext <;> assumption
  · intro h
    subst h
    simp [Vec3.length]

theorem Vec3.length_pos_of_ne_zero (v : Vec3) (h : v ≠ ⟨0, 0, 0⟩) : 0 < v.length :=
  lt_of_le_of_ne (Vec3.length_nonneg v) (fun h0 => h ((Vec3.length_eq_zero_iff v).mp h0.symm))

theorem Vec3.normalize_of_length_pos (v : Vec3) (h : 0 < v.length) :
    v.normalize = v.multiplyScalar (1 / v.length) := by
  rw [Vec3.normalize, if_neg (ne_of_gt h)]

theorem Vec3.length_multiplyScalar (v : Vec3) (c : ℝ) (hc : 0 ≤ c) :
    (v.multiplyScalar c).length = c * v.length := by
  show Real.sqrt (v.x * c * (v.x * c) + v.y * c * (v.y * c) + v.z * c * (v.z * c)) = _
  have h1 : v.x * c * (v.x * c) + v.y * c * (v.y * c) + v.z * c * (v.z * c)
      = (c * c) * (v.x * v.x + v.y * v.y + v.z * v.z) := by ring
  rw [h1, Real.sqrt_mul (mul_self_nonneg c), Vec3.length,
    Real.sqrt_mul_self hc]

theorem Vec3.length_normalize (v : Vec3) (h : v ≠ ⟨0, 0, 0⟩) : v.normalize.length = 1 := by
  have hl := Vec3.length_pos_of_ne_zero v h
  rw [Vec3.normalize_of_length_pos v hl,
    Vec3.length_multiplyScalar v _ (by positivity), one_div,
    inv_mul_cancel₀ (ne_of_gt hl)]

theorem Vec3.normalize_zero : Vec3.normalize ⟨0, 0, 0⟩ = ⟨0, 0, 0⟩ := by
  simp [Vec3.normalize, Vec3.multiplyScalar]

theorem Vec3.normalize_z_pos (v : Vec3) (h : 0 < v.z) : 0 < v.normalize.z := by
  have hne : v ≠ ⟨0, 0, 0⟩ := by
    intro he
    rw [he] at h
    exact lt_irrefl 0 h
  have hl := Vec3.length_pos_of_ne_zero v hne
  rw [Vec3.normalize_of_length_pos v hl]
  show 0 < v.z * (1 / v.length)
  positivity

theorem ferrariPoint_zero : ferrariPoint 0 = ⟨0, 47.5, 0⟩ := by
  unfold ferrariPoint Vec3.multiplyScalar CURVE_SCALE
  ext <;> norm_num

theorem ferrariPoint_one : ferrariPoint 1 = ⟨0, 47.5, 0⟩ := by
  have e1 : (1 : ℝ) * (Real.pi * 2) * 2 = (4 : ℤ) * Real.pi := by push_cast; ring
  have e3 : (1 : ℝ) * (Real.pi * 2) * 4 = (8 : ℤ) * Real.pi := by push_cast; ring
  have e4 : (1 : ℝ) * (Real.pi * 2) * 8 = (8 : ℤ) * (2 * Real.pi) := by push_cast; ring
  have e5 : (1 : ℝ) * (Real.pi * 2) * 1.5 = (3 : ℤ) * Real.pi := by push_cast; ring
  unfold ferrariPoint Vec3.multiplyScalar CURVE_SCALE
  rw [e1, e3, e4, e5, Real.sin_int_mul_pi 4, Real.sin_int_mul_pi 8,
    Real.sin_int_mul_pi 3, Real.cos_int_mul_two_pi 8]
  ext <;> norm_num

theorem ferrariPoint_x_pos (t : ℝ) (h0 : 0 < t) (h1 : t ≤ 0.0002) :
    0 < (ferrariPoint t).x := by
  have hpi := Real.pi_pos
  have htpi0 : 0 < t * Real.pi := mul_pos h0 hpi
  have htpi1 : t * Real.pi ≤ 0.0002 * Real.pi :=
    mul_le_mul_of_nonneg_right h1 (le_of_lt hpi)
  have hs : 0 < Real.sin (t * (Real.pi * 2) * 2) := by
    apply Real.sin_pos_of_pos_of_lt_pi
    · nlinarith
    · nlinarith
  have hc : 0 < Real.cos (t * (Real.pi * 2) * 3) := by
    apply Real.cos_pos_of_mem_Ioo
    constructor
    · nlinarith
    · nlinarith
  show 0 < Real.sin (t * (Real.pi * 2) * 2) * Real.cos (t * (Real.pi * 2) * 3) * 60
      * CURVE_SCALE
  exact mul_pos (mul_pos (mul_pos hs hc) (by norm_num))
    (by norm_num [CURVE_SCALE])

theorem ferrariPoint_z_pos (t : ℝ) (h0 : 0 < t) (h1 : t ≤ 0.0002) :
    0 < (ferrariPoint t).z := by
  have hpi := Real.pi_pos
  have htpi0 : 0 < t * Real.pi := mul_pos h0 hpi
  have htpi1 : t * Real.pi ≤ 0.0002 * Real.pi :=
    mul_le_mul_of_nonneg_right h1 (le_of_lt hpi)
  have hs : 0 < Real.sin (t * (Real.pi * 2) * 1.5) := by
    apply Real.sin_pos_of_pos_of_lt_pi
    · nlinarith
    · nlinarith
  have hc : 0 < Real.cos (t * (Real.pi * 2) * 2) := by
    apply Real.cos_pos_of_mem_Ioo
    constructor
    · nlinarith
    · nlinarith
  show 0 < Real.sin (t * (Real.pi * 2) * 1.5) * Real.cos (t * (Real.pi * 2) * 2) * 60
      * CURVE_SCALE
  exact mul_pos (mul_pos (mul_pos hs hc) (by norm_num))
    (by norm_num [CURVE_SCALE])

theorem ferrariPoint_z_09998_pos : 0 < (ferrariPoint 0.9998).z := by
  have hpi := Real.pi_pos
  have a1 : (0.9998 : ℝ) * (Real.pi * 2) * 1.5
      = (Real.pi - 0.0006 * Real.pi) + (1 : ℤ) * (2 * Real.pi) := by push_cast; ring
  have a2 : (0.9998 : ℝ) * (Real.pi * 2) * 2
      = (-(0.0008 * Real.pi)) + (2 : ℤ) * (2 * Real.pi) := by push_cast; ring
  have hs : 0 < Real.sin ((0.9998 : ℝ) * (Real.pi * 2) * 1.5) := by
    rw [a1, Real.sin_add_int_mul_two_pi, Real.sin_pi_sub]
    apply Real.sin_pos_of_pos_of_lt_pi
    · linarith
    · linarith
  have hc : 0 < Real.cos ((0.9998 : ℝ) * (Real.pi * 2) * 2) := by
    rw [a2, Real.cos_add_int_mul_two_pi, Real.cos_neg]
    apply Real.cos_pos_of_mem_Ioo
    constructor
    · linarith
    · linarith
  show 0 < Real.sin ((0.9998 : ℝ) * (Real.pi * 2) * 1.5)
      * Real.cos ((0.9998 : ℝ) * (Real.pi * 2) * 2) * 60 * CURVE_SCALE
  exact mul_pos (mul_pos (mul_pos hs hc) (by norm_num))
    (by norm_num [CURVE_SCALE])

theorem ferrariPoint_z_sixth : (ferrariPoint (1 / 6 : ℝ)).z = -75 := by
  have a1 : (1 / 6 : ℝ) * (Real.pi * 2) * 1.5 = Real.pi / 2 := by ring
  have a2 : (1 / 6 : ℝ) * (Real.pi * 2) * 2 = Real.pi - Real.pi / 3 := by ring
  show Real.sin ((1 / 6 : ℝ) * (Real.pi * 2) * 1.5)
      * Real.cos ((1 / 6 : ℝ) * (Real.pi * 2) * 2) * 60 * CURVE_SCALE = -75
  rw [a1, a2, Real.sin_pi_div_two, Real.cos_pi_sub, Real.cos_pi_div_three]
  norm_num [CURVE_SCALE]

theorem ferrariPoint_z_seven_sixth : (ferrariPoint (7 / 6 : ℝ)).z = 75 := by
  have a1 : (7 / 6 : ℝ) * (Real.pi * 2) * 1.5
      = (Real.pi + Real.pi / 2) + (1 : ℤ) * (2 * Real.pi) := by push_cast; ring
  have a2 : (7 / 6 : ℝ) * (Real.pi * 2) * 2
      = (Real.pi - Real.pi / 3) + (2 : ℤ) * (2 * Real.pi) := by push_cast; ring
  show Real.sin ((7 / 6 : ℝ) * (Real.pi * 2) * 1.5)
      * Real.cos ((7 / 6 : ℝ) * (Real.pi * 2) * 2) * 60 * CURVE_SCALE = 75
  rw [a1, a2, Real.sin_add_int_mul_two_pi, Real.cos_add_int_mul_two_pi, Real.sin_add,
    Real.cos_pi_sub, Real.cos_pi_div_three, Real.sin_pi, Real.cos_pi,
    Real.sin_pi_div_two, Real.cos_pi_div_two]
  norm_num [CURVE_SCALE]

/-- The position function repeats with period 2 in t: every harmonic
argument shifts by an integer multiple of two pi when t grows by 2. -/
theorem ferrariPoint_add_two (t : ℝ) : ferrariPoint (t + 2) = ferrariPoint t := by
  have e1 : (t + 2) * (Real.pi * 2) * 2 = t * (Real.pi * 2) * 2 + (4 : ℤ) * (2 * Real.pi) := by
    push_cast; ring
  have e2 : (t + 2) * (Real.pi * 2) * 3 = t * (Real.pi * 2) * 3 + (6 : ℤ) * (2 * Real.pi) := by
    push_cast; ring
  have e3 : (t + 2) * (Real.pi * 2) * 4 = t * (Real.pi * 2) * 4 + (8 : ℤ) * (2 * Real.pi) := by
    push_cast; ring
  have e4 : (t + 2) * (Real.pi * 2) * 8 = t * (Real.pi * 2) * 8 + (16 : ℤ) * (2 * Real.pi) := by
    push_cast; ring
  have e5 : (t + 2) * (Real.pi * 2) * 1.5 = t * (Real.pi * 2) * 1.5 + (3 : ℤ) * (2 * Real.pi) := by
    push_cast; ring
  unfold ferrariPoint
  rw [e1, e2, e3, e4, e5,
    Real.sin_add_int_mul_two_pi (t * (Real.pi * 2) * 2) 4,
    Real.cos_add_int_mul_two_pi (t * (Real.pi * 2) * 3) 6,
    Real.sin_add_int_mul_two_pi (t * (Real.pi * 2) * 4) 8,
    Real.cos_add_int_mul_two_pi (t * (Real.pi * 2) * 8) 16,
    Real.sin_add_int_mul_two_pi (t * (Real.pi * 2) * 1.5) 3,
    Real.cos_add_int_mul_two_pi (t * (Real.pi * 2) * 2) 4]

theorem Vec3.normalize_z_neg (v : Vec3) (h : v.z < 0) : v.normalize.z < 0 := by
  have hne : v ≠ ⟨0, 0, 0⟩ := by
    intro he
    rw [he] at h
    exact lt_irrefl 0 h
  have hl := Vec3.length_pos_of_ne_zero v hne
  rw [Vec3.normalize_of_length_pos v hl]
  show v.z * (1 / v.length) < 0
  exact mul_neg_of_neg_of_pos h (by positivity)

/- Derived closed forms of the per-frame update, proved equal to the
statement-by-statement embedding. -/

/-- Progress value after the modulo step of updateCameraPosition. -/
noncomputable def newProgress (s : SimState) : ℝ := jsMod1 (s.progress + s.velocity)

/-- Clamp of the velocity into the configured band, as written in the
source: max of MIN_VELOCITY and min of MAX_VELOCITY. -/
noncomputable def clampVel (x : ℝ) : ℝ := max MIN_VELOCITY (min MAX_VELOCITY x)

/-- Velocity produced by one update: accelerate by the slope effect, damp,
then clamp. -/
noncomputable def nextVelocity (P : ℝ → Vec3) (p v : ℝ) : ℝ :=
  clampVel ((v + -(tangentOf P p).y * GRAVITY_FACTOR * FIXED_DELTA_TIME) * VELOCITY_DAMPING)

/-- Camera position before the steering offset: content of the first
scratch buffer (the path point at the lower clamped lookup) plus the
reversed scaled tangent plus the unit lift. -/
noncomputable def camBase (P : ℝ → Vec3) (p : ℝ) : Vec3 :=
  Vec3.add (P (t1of p)) (Vec3.add (Vec3.multiplyScalar (tangentOf P p) (-1.5)) ⟨0, 1, 0⟩)

/-- Steering offset applied to the x coordinate only. -/
noncomputable def withMouseX (b : Vec3) (m : ℝ) : Vec3 :=
  ⟨b.x + (m - 0.5) * 20, b.y, b.z⟩

/-- Look-at target: first buffer content plus five times the tangent. -/
noncomputable def lookTarget (P : ℝ → Vec3) (p : ℝ) : Vec3 :=
  Vec3.add (P (t1of p)) (Vec3.multiplyScalar (tangentOf P p) 5)

/-- Vehicle forward vector: the sampled tangent, normalized again. -/
noncomputable def forwardOf (P : ℝ → Vec3) (t : ℝ) : Vec3 :=
  Vec3.normalize (tangentOf P t)

/-- Vehicle right vector: normalize(cross(worldUp, forward)). -/
noncomputable def rightOf (P : ℝ → Vec3) (t : ℝ) : Vec3 :=
  Vec3.normalize (Vec3.cross ⟨0, 1, 0⟩ (forwardOf P t))

/-- Vehicle up vector: normalize(cross(forward, right)). -/
noncomputable def carUpOf (P : ℝ → Vec3) (t : ℝ) : Vec3 :=
  Vec3.normalize (Vec3.cross (forwardOf P t) (rightOf P t))

/-- Closed form of updateCameraPosition.  Note that both the camera base
point and the look-at target are anchored at the path point of the lower
clamped lookup t1of, because getTangentAt overwrote the buffer that the
position reference points into. -/
theorem updateCameraPosition_eq (P : ℝ → Vec3) (s : SimState) (cs : CState) :
    updateCameraPosition P s cs =
      ({ s with
          progress := newProgress s,
          velocity := nextVelocity P (newProgress s) s.velocity,
          camPos := withMouseX (camBase P (newProgress s)) s.mouseX,
          camLook := lookTarget P (newProgress s) },
       ⟨P (t1of (newProgress s)), Vec3.multiplyScalar (tangentOf P (newProgress s)) 5⟩) := rfl

theorem updateCarPosition_eq_false (P : ℝ → Vec3) (s : SimState) (cs : CState)
    (h : s.carLoaded = false) : updateCarPosition P s cs = (s, cs) := by
  simp [updateCarPosition, h]

/-- Closed form of updateCarPosition when the vehicle asset is loaded: the
vehicle is anchored at the path point of the lower clamped lookup (same
buffer aliasing as the camera), lifted by 0.2, with the orthonormal-basis
orientation. -/
theorem updateCarPosition_eq_true (P : ℝ → Vec3) (s : SimState) (cs : CState)
    (h : s.carLoaded = true) :
    updateCarPosition P s cs =
      ({ s with
          carPos := ⟨(P (t1of s.progress)).x, (P (t1of s.progress)).y + 0.2,
            (P (t1of s.progress)).z⟩,
          carRight := rightOf P s.progress,
          carUpV := carUpOf P s.progress,
          carForward := forwardOf P s.progress },
       ⟨P (t1of s.progress), tangentOf P s.progress⟩) := by
  simp only [updateCarPosition, h, if_true]
  rfl

theorem updateCarPosition_keeps_motion (P : ℝ → Vec3) (s : SimState) (cs : CState) :
    (updateCarPosition P s cs).1.progress = s.progress ∧
    (updateCarPosition P s cs).1.velocity = s.velocity ∧
    (updateCarPosition P s cs).1.camPos = s.camPos ∧
    (updateCarPosition P s cs).1.camLook = s.camLook ∧
    (updateCarPosition P s cs).1.carLoaded = s.carLoaded ∧
    (updateCarPosition P s cs).1.mouseX = s.mouseX := by
  cases h : s.carLoaded
  · rw [updateCarPosition_eq_false P s cs h]
    exact ⟨rfl, rfl, rfl, rfl, h, rfl⟩
  · rw [updateCarPosition_eq_true P s cs h]
    exact ⟨rfl, rfl, rfl, rfl, h, rfl⟩

theorem clampVel_mem (x : ℝ) :
    MIN_VELOCITY ≤ clampVel x ∧ clampVel x ≤ MAX_VELOCITY := by
  refine ⟨le_max_left _ _, max_le ?_ (min_le_left _ _)⟩
  norm_num [MIN_VELOCITY, MAX_VELOCITY]

theorem MIN_VELOCITY_pos : 0 < MIN_VELOCITY := by norm_num [MIN_VELOCITY]

/-- One frame keeps progress in [0,1) and keeps the velocity inside the
clamp band, as soon as the incoming progress is non-negative and the
incoming velocity is at least the minimum. -/
theorem frame_invariant (P : ℝ → Vec3) (sc : SimState × CState)
    (hp : 0 ≤ sc.1.progress) (hv : MIN_VELOCITY ≤ sc.1.velocity) :
    0 ≤ (frame P sc).1.progress ∧ (frame P sc).1.progress < 1 ∧
    MIN_VELOCITY ≤ (frame P sc).1.velocity ∧ (frame P sc).1.velocity ≤ MAX_VELOCITY := by
  have hsum : 0 ≤ sc.1.progress + sc.1.velocity := by
    have := MIN_VELOCITY_pos
    linarith
  have hprog := jsMod1_mem_Ico (sc.1.progress + sc.1.velocity) hsum
  have hvel := clampVel_mem ((sc.1.velocity +
      -(tangentOf P (newProgress sc.1)).y * GRAVITY_FACTOR * FIXED_DELTA_TIME)
      * VELOCITY_DAMPING)
  have hcar := updateCarPosition_keeps_motion P
    (updateCameraPosition P sc.1 sc.2).1 (updateCameraPosition P sc.1 sc.2).2
  have hframe : frame P sc = updateCarPosition P
      (updateCameraPosition P sc.1 sc.2).1 (updateCameraPosition P sc.1 sc.2).2 := rfl
  rw [hframe, hcar.1, hcar.2.1, updateCameraPosition_eq]
  exact ⟨hprog.1, hprog.2, hvel.1, hvel.2⟩

/-- Weak invariant preserved by any number of frames: non-negative
progress and velocity at least the minimum. -/
theorem advance_winv (P : ℝ → Vec3) (n : ℕ) (sc : SimState × CState)
    (hp : 0 ≤ sc.1.progress) (hv : MIN_VELOCITY ≤ sc.1.velocity) :
    0 ≤ (advance P n sc).1.progress ∧ MIN_VELOCITY ≤ (advance P n sc).1.velocity := by
  induction n with
  | zero => exact ⟨hp, hv⟩
  | succ k ih =>
    have h := frame_invariant P (advance P k sc) ih.1 ih.2
    exact ⟨h.1, h.2.2.1⟩

/-- Initial simulation state: progress 0, velocity INITIAL_VELOCITY,
neutral steering, vehicle not yet loaded. -/
def startSim : SimState :=
  ⟨0, INITIAL_VELOCITY, 0.5, ⟨0, 0, 0⟩, ⟨0, 0, 0⟩, false,
   ⟨0, 0, 0⟩, ⟨0, 0, 0⟩, ⟨0, 0, 0⟩, ⟨0, 0, 0⟩⟩

/-- Zeroed scratch buffers, the state of the closure vectors before any
sampling call. -/
def csZero : CState := ⟨⟨0, 0, 0⟩, ⟨0, 0, 0⟩⟩

/-- C1: from any state with non-negative progress and velocity in the
clamp band (which covers the start state progress 0, velocity
INITIAL_VELOCITY), after every frame update the progress lies in [0,1)
and the velocity lies in [MIN_VELOCITY, MAX_VELOCITY], whose values are
0.00005 and 0.004. -/
theorem motion_invariant_C1 (s : SimState) (cs : CState) (n : ℕ)
    (hp : 0 ≤ s.progress) (hv1 : MIN_VELOCITY ≤ s.velocity)
    (hv2 : s.velocity ≤ MAX_VELOCITY) (hn : 1 ≤ n) :
    (0 ≤ (advance ferrariPoint n (s, cs)).1.progress ∧
      (advance ferrariPoint n (s, cs)).1.progress < 1) ∧
    (MIN_VELOCITY ≤ (advance ferrariPoint n (s, cs)).1.velocity ∧
      (advance ferrariPoint n (s, cs)).1.velocity ≤ MAX_VELOCITY) ∧
    MIN_VELOCITY = 0.00005 ∧ MAX_VELOCITY = 0.004 := by
  obtain ⟨m, rfl⟩ : ∃ m, n = m + 1 := ⟨n - 1, by omega⟩
  have hw := advance_winv ferrariPoint m (s, cs) hp hv1
  have h := frame_invariant ferrariPoint (advance ferrariPoint m (s, cs)) hw.1 hw.2
  exact ⟨⟨h.1, h.2.1⟩, ⟨h.2.2.1, h.2.2.2⟩, rfl, rfl⟩

theorem motion_invariant_C1_witness :
    (0 ≤ startSim.progress ∧ MIN_VELOCITY ≤ startSim.velocity ∧
      startSim.velocity ≤ MAX_VELOCITY ∧ 1 ≤ 1) ∧
    ((0 ≤ (advance ferrariPoint 1 (startSim, csZero)).1.progress ∧
      (advance ferrariPoint 1 (startSim, csZero)).1.progress < 1) ∧
    (MIN_VELOCITY ≤ (advance ferrariPoint 1 (startSim, csZero)).1.velocity ∧
      (advance ferrariPoint 1 (startSim, csZero)).1.velocity ≤ MAX_VELOCITY) ∧
    MIN_VELOCITY = 0.00005 ∧ MAX_VELOCITY = 0.004) := by
  have h1 : 0 ≤ startSim.progress := by norm_num [startSim]
  have h2 : MIN_VELOCITY ≤ startSim.velocity := by
    norm_num [startSim, MIN_VELOCITY, INITIAL_VELOCITY]
  have h3 : startSim.velocity ≤ MAX_VELOCITY := by
    norm_num [startSim, MAX_VELOCITY, INITIAL_VELOCITY]
  exact ⟨⟨h1, h2, h3, le_refl 1⟩,
    motion_invariant_C1 startSim csZero 1 h1 h2 h3 (le_refl 1)⟩

/-- C2: each frame first advances progress by the old velocity modulo 1,
then samples the tangent at the new progress, then sets the velocity to
clamp of ((velocity + (-tangent.y) * GRAVITY_FACTOR * FIXED_DELTA_TIME) *
VELOCITY_DAMPING), damping after the acceleration and clamping last; and
from progress 0 and velocity INITIAL_VELOCITY one update yields progress
INITIAL_VELOCITY mod 1, which equals INITIAL_VELOCITY. -/
theorem frame_order_C2 :
    (∀ (s : SimState) (cs : CState),
      (updateCameraPosition ferrariPoint s cs).1.progress
          = jsMod1 (s.progress + s.velocity) ∧
      (updateCameraPosition ferrariPoint s cs).1.velocity
          = max MIN_VELOCITY (min MAX_VELOCITY
              ((s.velocity +
                  -(tangentOf ferrariPoint (jsMod1 (s.progress + s.velocity))).y
                    * GRAVITY_FACTOR * FIXED_DELTA_TIME) * VELOCITY_DAMPING))) ∧
    (updateCameraPosition ferrariPoint startSim csZero).1.progress
        = jsMod1 INITIAL_VELOCITY ∧
    jsMod1 INITIAL_VELOCITY = INITIAL_VELOCITY := by
  refine ⟨fun s cs => ⟨rfl, rfl⟩, ?_, ?_⟩
  · show jsMod1 (startSim.progress + startSim.velocity) = jsMod1 INITIAL_VELOCITY
    norm_num [startSim]
  · exact jsMod1_eq_self _ (by norm_num [INITIAL_VELOCITY])
      (by norm_num [INITIAL_VELOCITY])

/-- C10: setMouseX stores its argument unclamped, the next frame adds
exactly (v - 0.5) * 20 to the camera x coordinate relative to neutral
steering, and the out-of-range input v = 2 shifts the camera by 30, which
is beyond the offset bound 10 reached at v = 1. -/
theorem steering_unclamped_C10 :
    (∀ (v : ℝ) (s : SimState), (setMouseX v s).mouseX = v) ∧
    (∀ (v : ℝ) (s : SimState) (cs : CState),
      (updateCameraPosition ferrariPoint (setMouseX v s) cs).1.camPos.x
        - (updateCameraPosition ferrariPoint (setMouseX 0.5 s) cs).1.camPos.x
        = (v - 0.5) * 20) ∧
    (∀ (s : SimState) (cs : CState),
      (updateCameraPosition ferrariPoint (setMouseX 2 s) cs).1.camPos.x
        - (updateCameraPosition ferrariPoint (setMouseX 0.5 s) cs).1.camPos.x = 30) ∧
    (10 : ℝ) < 30 := by
  refine ⟨fun v s => rfl, ?_, ?_, by norm_num⟩
  · intro v s cs
    show (camBase ferrariPoint (jsMod1 (s.progress + s.velocity))).x + (v - 0.5) * 20
        - ((camBase ferrariPoint (jsMod1 (s.progress + s.velocity))).x
            + ((0.5 : ℝ) - 0.5) * 20)
        = (v - 0.5) * 20
    ring
  · intro s cs
    show (camBase ferrariPoint (jsMod1 (s.progress + s.velocity))).x + ((2 : ℝ) - 0.5) * 20
        - ((camBase ferrariPoint (jsMod1 (s.progress + s.velocity))).x
            + ((0.5 : ℝ) - 0.5) * 20)
        = 30
    ring

theorem dispose_animationId_zero (s : DState) : (dispose s).1.animationId = 0 := by
  show (if s.animationId ≠ 0 then 0 else s.animationId) = 0
  by_cases hc : s.animationId ≠ 0
  · rw [if_pos hc]
  · rw [if_neg hc]
    push_neg at hc
    exact hc

/-- On every reachable service state, a zero animation handle means no
frame callback is pending. -/
theorem reachSvc_pending (s : DState) (h : ReachSvc s) :
    s.animationId = 0 → s.pending = false := by
  induction h with
  | base => intro _; rfl
  | step id s hid hr ih => intro h0; exact absurd h0 hid
  | teardown s hr ih =>
    intro _
    show (if s.animationId ≠ 0 then false else s.pending) = false
    by_cases hc : s.animationId ≠ 0
    · rw [if_pos hc]
    · rw [if_neg hc]
      push_neg at hc
      exact ih hc

/-- C9: dispose is idempotent on every reachable state: a second call
reproduces the same end state (animation handle cleared, geometry and
material lists empty), releases no geometry, material or animation handle
a second time (its emitted calls are only the renderer and scene
teardown calls, which the collaborators accept repeatedly), and after the
first call no frame invocation is pending. -/
theorem dispose_idem_C9 (s : DState) (h : ReachSvc s) :
    (dispose (dispose s).1).1 = (dispose s).1 ∧
    (dispose s).1.animationId = 0 ∧
    (dispose s).1.geoms = [] ∧
    (dispose s).1.mats = [] ∧
    (dispose s).1.pending = false ∧
    (dispose (dispose s).1).2
      = (if s.hasRenderer then [DAction.disposeRenderer, DAction.forceContextLoss] else [])
        ++ (if s.hasScene then [DAction.clearScene] else []) := by
  refine ⟨?_, dispose_animationId_zero s, rfl, rfl, ?_, ?_⟩
  · by_cases hc : s.animationId = 0 <;> simp [dispose, hc]
  · show (if s.animationId ≠ 0 then false else s.pending) = false
    by_cases hc : s.animationId ≠ 0
    · rw [if_pos hc]
    · rw [if_neg hc]
      push_neg at hc
      exact reachSvc_pending s h hc
  · by_cases hc : s.animationId = 0 <;> simp [dispose, hc]

theorem dispose_idem_C9_witness :
    ReachSvc initSvcState ∧
    ((dispose (dispose initSvcState).1).1 = (dispose initSvcState).1 ∧
    (dispose initSvcState).1.animationId = 0 ∧
    (dispose initSvcState).1.geoms = [] ∧
    (dispose initSvcState).1.mats = [] ∧
    (dispose initSvcState).1.pending = false ∧
    (dispose (dispose initSvcState).1).2
      = (if initSvcState.hasRenderer
          then [DAction.disposeRenderer, DAction.forceContextLoss] else [])
        ++ (if initSvcState.hasScene then [DAction.clearScene] else [])) :=
  ⟨ReachSvc.base, dispose_idem_C9 initSvcState ReachSvc.base⟩

theorem ferrariPoint_zero_ne (t : ℝ) (h0 : 0 < t) (h1 : t ≤ 0.0002) :
    ferrariPoint 0 ≠ ferrariPoint t := by
  intro h
  have hp := ferrariPoint_x_pos t h0 h1
  rw [← h, ferrariPoint_zero] at hp
  norm_num at hp

/-- Camera placement as the specification words it: the sampled path
position at the new progress, plus the reversed scaled tangent, plus the
unit lift, with the steering offset added to the x coordinate. -/
noncomputable def specCameraPos (p m : ℝ) : Vec3 :=
  withMouseX (Vec3.add (ferrariPoint p)
    (Vec3.add (Vec3.multiplyScalar (tangentOf ferrariPoint p) (-1.5)) ⟨0, 1, 0⟩)) m

/-- Vehicle placement as the specification words it: the sampled path
position at the current progress plus the vertical lift 0.2. -/
noncomputable def specCarPos (p : ℝ) : Vec3 :=
  Vec3.add (ferrariPoint p) ⟨0, 0.2, 0⟩

/-- Concrete state for the camera counterexample: progress 0, velocity
0.0001, neutral steering; the new progress of the frame is 0.0001 and the
lower clamped lookup is 0. -/
def cexSim : SimState :=
  ⟨0, 0.0001, 0.5, ⟨0, 0, 0⟩, ⟨0, 0, 0⟩, false,
   ⟨0, 0, 0⟩, ⟨0, 0, 0⟩, ⟨0, 0, 0⟩, ⟨0, 0, 0⟩⟩

/-- Concrete state for the vehicle counterexample: current progress
0.0001 with the vehicle asset loaded. -/
def cexSimCar : SimState :=
  ⟨0.0001, 0.0002, 0.5, ⟨0, 0, 0⟩, ⟨0, 0, 0⟩, true,
   ⟨0, 0, 0⟩, ⟨0, 0, 0⟩, ⟨0, 0, 0⟩, ⟨0, 0, 0⟩⟩

/-- C3 counterexample: at progress 0 and velocity 0.0001 the camera
position assigned by the frame differs from the formula of the claim
(path position sampled at the new progress plus offsets), because the
position reference was overwritten to the path point at
max(0, progress - delta) = 0 before the camera read it. -/
theorem camera_formula_C3_cex :
    (updateCameraPosition ferrariPoint cexSim csZero).1.camPos
      ≠ specCameraPos (jsMod1 (cexSim.progress + cexSim.velocity)) cexSim.mouseX := by
  have hp : jsMod1 (cexSim.progress + cexSim.velocity) = 0.0001 := by
    show jsMod1 ((0 : ℝ) + 0.0001) = 0.0001
    rw [zero_add]
    exact jsMod1_eq_self _ (by norm_num) (by norm_num)
  have ht : t1of (0.0001 : ℝ) = 0 := by
    show max 0 ((0.0001 : ℝ) - 0.0001) = 0
    norm_num
  intro h
  have hx : (ferrariPoint (t1of (jsMod1 (cexSim.progress + cexSim.velocity)))).x
      + ((tangentOf ferrariPoint (jsMod1 (cexSim.progress + cexSim.velocity))).x * (-1.5) + 0)
      + (cexSim.mouseX - 0.5) * 20
      = (ferrariPoint (jsMod1 (cexSim.progress + cexSim.velocity))).x
      + ((tangentOf ferrariPoint (jsMod1 (cexSim.progress + cexSim.velocity))).x * (-1.5) + 0)
      + (cexSim.mouseX - 0.5) * 20 := congrArg Vec3.x h
  rw [hp, ht] at hx
  have h0 : (ferrariPoint 0).x = 0 := by rw [ferrariPoint_zero]
  rw [h0] at hx
  have hpos := ferrariPoint_x_pos 0.0001 (by norm_num) (by norm_num)
  linarith

/-- C3 corrected: every frame places the camera at the path point of the
lower clamped lookup max(0, newProgress - delta) (not at the new progress
itself) plus tangent times -1.5 plus (0,1,0), adds the steering offset to
the x coordinate only, and aims at that same anchor point plus tangent
times 5; neutral steering contributes exactly 0 and steering input 1
contributes exactly 0.5 * 20. -/
theorem camera_formula_C3 :
    ∀ (s : SimState) (cs : CState),
      (updateCameraPosition ferrariPoint s cs).1.camPos
        = withMouseX (camBase ferrariPoint (newProgress s)) s.mouseX ∧
      (updateCameraPosition ferrariPoint s cs).1.camLook
        = lookTarget ferrariPoint (newProgress s) ∧
      camBase ferrariPoint (newProgress s)
        = Vec3.add (ferrariPoint (t1of (newProgress s)))
            (Vec3.add (Vec3.multiplyScalar (tangentOf ferrariPoint (newProgress s)) (-1.5))
              ⟨0, 1, 0⟩) ∧
      (updateCameraPosition ferrariPoint (setMouseX 0.5 s) cs).1.camPos.x
        = (camBase ferrariPoint (newProgress s)).x ∧
      (updateCameraPosition ferrariPoint (setMouseX 1 s) cs).1.camPos.x
        = (camBase ferrariPoint (newProgress s)).x + 0.5 * 20 := by
  intro s cs
  refine ⟨rfl, rfl, rfl, ?_, ?_⟩
  · show (camBase ferrariPoint (jsMod1 (s.progress + s.velocity))).x + ((0.5 : ℝ) - 0.5) * 20
        = (camBase ferrariPoint (jsMod1 (s.progress + s.velocity))).x
    norm_num
  · show (camBase ferrariPoint (jsMod1 (s.progress + s.velocity))).x + ((1 : ℝ) - 0.5) * 20
        = (camBase ferrariPoint (jsMod1 (s.progress + s.velocity))).x + 0.5 * 20
    norm_num

/-- C4 counterexample: call getPointAt at t = 0.0001, keep the returned
reference, then call getTangentAt at the same t; the kept position now
reads as the path point at 0 = max(0, t - delta), no longer the
closed-form position at t. -/
theorem path_alias_C4_cex :
    ((getTangentAtS ferrariPoint 0.0001
        ((getPointAtS ferrariPoint 0.0001 csZero).2)).2).b1 ≠ ferrariPoint 0.0001 := by
  have ht : t1of (0.0001 : ℝ) = 0 := by
    show max 0 ((0.0001 : ℝ) - 0.0001) = 0
    norm_num
  show ferrariPoint (t1of 0.0001) ≠ ferrariPoint 0.0001
  rw [ht]
  exact ferrariPoint_zero_ne 0.0001 (by norm_num) (by norm_num)

/-- C4 corrected: getPointAt does return the closed-form position at call
time, but it returns an alias of a shared scratch buffer, and a
subsequent getTangentAt at the same t overwrites that buffer with the
position at max(0, t - delta).  The (tangent value, buffer pair) produced
is a function of t alone, independent of the incoming buffer contents, so
each frame samples deterministically from progress. -/
theorem path_alias_C4 :
    ∀ (t : ℝ) (cs : CState),
      (getPointAtS ferrariPoint t cs).1 = ferrariPoint t ∧
      ((getTangentAtS ferrariPoint t ((getPointAtS ferrariPoint t cs).2)).2).b1
        = ferrariPoint (t1of t) ∧
      ((getTangentAtS ferrariPoint t ((getPointAtS ferrariPoint t cs).2)).2).b2
        = tangentOf ferrariPoint t ∧
      (getTangentAtS ferrariPoint t ((getPointAtS ferrariPoint t cs).2)).1
        = tangentOf ferrariPoint t :=
  fun t cs => ⟨rfl, rfl, rfl, rfl⟩

/-- One frame on a state without the vehicle keeps every vehicle field
untouched and keeps the loaded flag false. -/
theorem frame_car_fields (P : ℝ → Vec3) (sc : SimState × CState)
    (h : sc.1.carLoaded = false) :
    (frame P sc).1.carLoaded = false ∧
    (frame P sc).1.carPos = sc.1.carPos ∧
    (frame P sc).1.carRight = sc.1.carRight ∧
    (frame P sc).1.carUpV = sc.1.carUpV ∧
    (frame P sc).1.carForward = sc.1.carForward := by
  have h1 : (updateCameraPosition P sc.1 sc.2).1.carLoaded = false := h
  have hfr : frame P sc
      = ((updateCameraPosition P sc.1 sc.2).1, (updateCameraPosition P sc.1 sc.2).2) :=
    updateCarPosition_eq_false P _ _ h1
  rw [hfr]
  exact ⟨h, rfl, rfl, rfl, rfl⟩

theorem advance_car_untouched (P : ℝ → Vec3) (n : ℕ) (sc : SimState × CState)
    (h : sc.1.carLoaded = false) :
    (advance P n sc).1.carLoaded = false ∧
    (advance P n sc).1.carPos = sc.1.carPos ∧
    (advance P n sc).1.carRight = sc.1.carRight ∧
    (advance P n sc).1.carUpV = sc.1.carUpV ∧
    (advance P n sc).1.carForward = sc.1.carForward := by
  induction n with
  | zero => exact ⟨h, rfl, rfl, rfl, rfl⟩
  | succ k ih =>
    have hf := frame_car_fields P (advance P k sc) ih.1
    exact ⟨hf.1, hf.2.1.trans ih.2.1, hf.2.2.1.trans ih.2.2.1,
      hf.2.2.2.1.trans ih.2.2.2.1, hf.2.2.2.2.trans ih.2.2.2.2⟩

/-- The camera transform written by a frame, valid whether or not the
vehicle is loaded (the vehicle update does not touch the camera). -/
theorem frame_camera (P : ℝ → Vec3) (sc : SimState × CState) :
    (frame P sc).1.camPos = withMouseX (camBase P (newProgress sc.1)) sc.1.mouseX ∧
    (frame P sc).1.camLook = lookTarget P (newProgress sc.1) := by
  have hk := updateCarPosition_keeps_motion P
    (updateCameraPosition P sc.1 sc.2).1 (updateCameraPosition P sc.1 sc.2).2
  exact ⟨hk.2.2.1, hk.2.2.2.1⟩

/-- C7 counterexample: with the vehicle loaded and current progress
0.0001, the assigned vehicle position differs from the claimed sampled
path position plus (0, 0.2, 0): the position reference was overwritten to
the path point at max(0, progress - delta) = 0 before the vehicle read
it. -/
theorem vehicle_formula_C7_cex :
    (updateCarPosition ferrariPoint cexSimCar csZero).1.carPos
      ≠ specCarPos cexSimCar.progress := by
  intro h
  have hx : (ferrariPoint (t1of cexSimCar.progress)).x
      = (ferrariPoint cexSimCar.progress).x + 0 := congrArg Vec3.x h
  have ht : t1of cexSimCar.progress = 0 := by
    show max 0 ((0.0001 : ℝ) - 0.0001) = 0
    norm_num
  rw [ht] at hx
  have h0 : (ferrariPoint 0).x = 0 := by rw [ferrariPoint_zero]
  rw [h0] at hx
  have hcp : cexSimCar.progress = 0.0001 := rfl
  rw [hcp] at hx
  have hpos := ferrariPoint_x_pos 0.0001 (by norm_num) (by norm_num)
  linarith

/-- C7 corrected: while the vehicle asset is unloaded the vehicle update
is a no-op for every frame (1000 frames included) and leaves the loaded
flag false, while the camera transform is still written each frame; once
loaded, the vehicle is placed at the path point of the lower clamped
lookup max(0, progress - delta) (not at the progress itself) plus
(0, VEHICLE_Y_OFFSET, 0) with VEHICLE_Y_OFFSET = 0.2, and its orientation
basis is forward = normalized tangent, right = normalize(cross(worldUp,
forward)), vehicleUp = normalize(cross(forward, right)). -/
theorem vehicle_formula_C7 :
    (∀ (s : SimState) (cs : CState) (n : ℕ),
      (advance ferrariPoint n ({ s with carLoaded := false }, cs)).1.carLoaded = false ∧
      (advance ferrariPoint n ({ s with carLoaded := false }, cs)).1.carPos = s.carPos ∧
      (advance ferrariPoint n ({ s with carLoaded := false }, cs)).1.carRight = s.carRight ∧
      (advance ferrariPoint n ({ s with carLoaded := false }, cs)).1.carUpV = s.carUpV ∧
      (advance ferrariPoint n ({ s with carLoaded := false }, cs)).1.carForward
        = s.carForward) ∧
    (∀ (s : SimState) (cs : CState) (n : ℕ),
      (advance ferrariPoint (n + 1) ({ s with carLoaded := false }, cs)).1.camPos
        = withMouseX
            (camBase ferrariPoint
              (newProgress (advance ferrariPoint n ({ s with carLoaded := false }, cs)).1))
            (advance ferrariPoint n ({ s with carLoaded := false }, cs)).1.mouseX ∧
      (advance ferrariPoint (n + 1) ({ s with carLoaded := false }, cs)).1.camLook
        = lookTarget ferrariPoint
            (newProgress (advance ferrariPoint n ({ s with carLoaded := false }, cs)).1)) ∧
    (∀ (s : SimState) (cs : CState),
      (advance ferrariPoint 1000 ({ s with carLoaded := false }, cs)).1.carLoaded
        = false) ∧
    (∀ (s : SimState) (cs : CState),
      (updateCarPosition ferrariPoint { s with carLoaded := true } cs).1.carPos
        = ⟨(ferrariPoint (t1of s.progress)).x, (ferrariPoint (t1of s.progress)).y + 0.2,
           (ferrariPoint (t1of s.progress)).z⟩ ∧
      (updateCarPosition ferrariPoint { s with carLoaded := true } cs).1.carForward
        = forwardOf ferrariPoint s.progress ∧
      (updateCarPosition ferrariPoint { s with carLoaded := true } cs).1.carRight
        = rightOf ferrariPoint s.progress ∧
      (updateCarPosition ferrariPoint { s with carLoaded := true } cs).1.carUpV
        = carUpOf ferrariPoint s.progress) := by
  refine ⟨?_, ?_, ?_, fun s cs => ⟨rfl, rfl, rfl, rfl⟩⟩
  · intro s cs n
    exact advance_car_untouched ferrariPoint n ({ s with carLoaded := false }, cs) rfl
  · intro s cs n
    exact frame_camera ferrariPoint (advance ferrariPoint n ({ s with carLoaded := false }, cs))
  · intro s cs
    exact (advance_car_untouched ferrariPoint 1000 ({ s with carLoaded := false }, cs) rfl).1

theorem Vec3.sub_eq_zero_iff (v w : Vec3) : Vec3.sub v w = ⟨0, 0, 0⟩ ↔ v = w := by
  constructor
  · intro hs
    have hx : v.x - w.x = 0 := congrArg Vec3.x hs
    have hy : v.y - w.y = 0 := congrArg Vec3.y hs
    have hz : v.z - w.z = 0 := congrArg Vec3.z hs
    ext
    · linarith
    · linarith
    · linarith
  · intro h
    subst h
    simp [Vec3.sub]

/-- C8: at every parameter whose two clamped lookups give distinct path
points, the tangent (the normalized central finite difference between
max(0, t - delta) and min(1, t + delta), delta = 0.0001) has length
exactly one. -/
theorem tangent_unit_C8 (t : ℝ)
    (h : ferrariPoint (t1of t) ≠ ferrariPoint (t2of t)) :
    Vec3.length (tangentOf ferrariPoint t) = 1 := by
  show (Vec3.normalize (Vec3.sub (ferrariPoint (t2of t)) (ferrariPoint (t1of t)))).length = 1
  apply Vec3.length_normalize
  intro hz
  exact h ((Vec3.sub_eq_zero_iff _ _).mp hz).symm

theorem tangent_unit_C8_witness :
    ferrariPoint (t1of 0.0001) ≠ ferrariPoint (t2of 0.0001) ∧
    Vec3.length (tangentOf ferrariPoint 0.0001) = 1 := by
  have h1 : t1of (0.0001 : ℝ) = 0 := by
    show max 0 ((0.0001 : ℝ) - 0.0001) = 0
    norm_num
  have h2 : t2of (0.0001 : ℝ) = 0.0002 := by
    show min 1 ((0.0001 : ℝ) + 0.0001) = 0.0002
    norm_num
  have hne : ferrariPoint (t1of 0.0001) ≠ ferrariPoint (t2of 0.0001) := by
    rw [h1, h2]
    exact ferrariPoint_zero_ne 0.0002 (by norm_num) (by norm_num)
  exact ⟨hne, tangent_unit_C8 0.0001 hne⟩

/-- The tangent just below the seam points into negative z. -/
theorem tangent_seam_neg : (tangentOf ferrariPoint ((1 : ℝ) - 0.0001)).z < 0 := by
  have ht1 : t1of ((1 : ℝ) - 0.0001) = 0.9998 := by
    show max 0 ((1 : ℝ) - 0.0001 - 0.0001) = 0.9998
    norm_num
  have ht2 : t2of ((1 : ℝ) - 0.0001) = 1 := by
    show min 1 ((1 : ℝ) - 0.0001 + 0.0001) = 1
    norm_num
  show (Vec3.normalize (Vec3.sub (ferrariPoint (t2of ((1 : ℝ) - 0.0001)))
      (ferrariPoint (t1of ((1 : ℝ) - 0.0001))))).z < 0
  rw [ht1, ht2]
  apply Vec3.normalize_z_neg
  show (ferrariPoint 1).z - (ferrariPoint 0.9998).z < 0
  have hz1 : (ferrariPoint 1).z = 0 := by rw [ferrariPoint_one]
  rw [hz1]
  have := ferrariPoint_z_09998_pos
  linarith

/-- The tangent at the start of the loop points into positive z. -/
theorem tangent_zero_pos : 0 < (tangentOf ferrariPoint 0).z := by
  have ht1 : t1of (0 : ℝ) = 0 := by
    show max 0 ((0 : ℝ) - 0.0001) = 0
    norm_num
  have ht2 : t2of (0 : ℝ) = 0.0001 := by
    show min 1 ((0 : ℝ) + 0.0001) = 0.0001
    norm_num
  show 0 < (Vec3.normalize (Vec3.sub (ferrariPoint (t2of 0)) (ferrariPoint (t1of 0)))).z
  rw [ht1, ht2]
  apply Vec3.normalize_z_pos
  show 0 < (ferrariPoint 0.0001).z - (ferrariPoint 0).z
  have hz0 : (ferrariPoint 0).z = 0 := by rw [ferrariPoint_zero]
  rw [hz0]
  have := ferrariPoint_z_pos 0.0001 (by norm_num) (by norm_num)
  linarith

/-- The position function is not periodic with period one: the z
component flips sign when t grows by one. -/
theorem ferrariPoint_period_ne :
    ferrariPoint ((1 : ℝ) / 6 + 1) ≠ ferrariPoint ((1 : ℝ) / 6) := by
  have h76 : (1 : ℝ) / 6 + 1 = 7 / 6 := by norm_num
  rw [h76]
  intro h
  have hz := congrArg Vec3.z h
  rw [ferrariPoint_z_seven_sixth, ferrariPoint_z_sixth] at hz
  norm_num at hz

/-- C5 counterexample: the underlying position function is not periodic
with period one (witnessed at t = 1/6), and the tangent direction is not
continuous across the seam: just below t = 1 its z component is negative
while at t = 0 it is positive, so the two tangents differ. -/
theorem seam_C5_cex :
    ferrariPoint ((1 : ℝ) / 6 + 1) ≠ ferrariPoint ((1 : ℝ) / 6) ∧
    (tangentOf ferrariPoint ((1 : ℝ) - 0.0001)).z < 0 ∧
    0 < (tangentOf ferrariPoint 0).z ∧
    tangentOf ferrariPoint ((1 : ℝ) - 0.0001) ≠ tangentOf ferrariPoint 0 := by
  refine ⟨ferrariPoint_period_ne, tangent_seam_neg, tangent_zero_pos, ?_⟩
  intro h
  have h1 := tangent_seam_neg
  have h2 := tangent_zero_pos
  rw [congrArg Vec3.z h] at h1
  linarith

/-- C5 corrected: the endpoints do coincide exactly, position(0) =
position(1), but the position function is only periodic with period two
(its z component flips sign under a shift by one), and the tangent
direction does not stay continuous across the seam: its z component is
negative just below t = 1 and positive at t = 0, so clamping the lookups
is not equivalent to wrapping there. -/
theorem seam_C5 :
    ferrariPoint 0 = ferrariPoint 1 ∧
    (∀ t : ℝ, ferrariPoint (t + 2) = ferrariPoint t) ∧
    (tangentOf ferrariPoint ((1 : ℝ) - 0.0001)).z < 0 ∧
    0 < (tangentOf ferrariPoint 0).z := by
  refine ⟨?_, ferrariPoint_add_two, tangent_seam_neg, tangent_zero_pos⟩
  rw [ferrariPoint_zero, ferrariPoint_one]

theorem Vec3.cross_zero_right (a : Vec3) : Vec3.cross a ⟨0, 0, 0⟩ = ⟨0, 0, 0⟩ := by
  simp [Vec3.cross]

theorem Vec3.cross_zero_left (a : Vec3) : Vec3.cross ⟨0, 0, 0⟩ a = ⟨0, 0, 0⟩ := by
  simp [Vec3.cross]

/-- Every frame leaves the velocity inside the clamp band, with no
assumption on the incoming state: the clamp is the last step. -/
theorem frame_velocity_band (P : ℝ → Vec3) (sc : SimState × CState) :
    MIN_VELOCITY ≤ (frame P sc).1.velocity ∧ (frame P sc).1.velocity ≤ MAX_VELOCITY := by
  have hk := updateCarPosition_keeps_motion P
    (updateCameraPosition P sc.1 sc.2).1 (updateCameraPosition P sc.1 sc.2).2
  have hv := clampVel_mem ((sc.1.velocity +
      -(tangentOf P (newProgress sc.1)).y * GRAVITY_FACTOR * FIXED_DELTA_TIME)
      * VELOCITY_DAMPING)
  have he : (frame P sc).1.velocity
      = clampVel ((sc.1.velocity +
          -(tangentOf P (newProgress sc.1)).y * GRAVITY_FACTOR * FIXED_DELTA_TIME)
          * VELOCITY_DAMPING) := hk.2.1
  rw [he]
  exact hv

/-- C6: on any path function, if the two clamped lookups at the frame's
new progress coincide (a degenerate, zero-length finite difference), the
guarded normalize of the rendering library returns the zero vector, so
the frame still assigns well-defined real transforms: the camera sits at
the anchor point plus (0,1,0) plus the steering offset, the look target
is the anchor point, the vehicle basis vectors are all zero with the
vehicle at the anchor plus (0, 0.2, 0), and every later frame keeps the
velocity inside the clamp band, so no undefined value propagates. -/
theorem degenerate_C6 (P : ℝ → Vec3) (s : SimState) (cs : CState)
    (hdeg : P (t2of (jsMod1 (s.progress + s.velocity)))
      = P (t1of (jsMod1 (s.progress + s.velocity)))) :
    tangentOf P (jsMod1 (s.progress + s.velocity)) = ⟨0, 0, 0⟩ ∧
    (frame P (s, cs)).1.camPos
      = ⟨(P (t1of (jsMod1 (s.progress + s.velocity)))).x + (s.mouseX - 0.5) * 20,
         (P (t1of (jsMod1 (s.progress + s.velocity)))).y + 1,
         (P (t1of (jsMod1 (s.progress + s.velocity)))).z⟩ ∧
    (frame P (s, cs)).1.camLook = P (t1of (jsMod1 (s.progress + s.velocity))) ∧
    (s.carLoaded = true →
      (frame P (s, cs)).1.carForward = ⟨0, 0, 0⟩ ∧
      (frame P (s, cs)).1.carRight = ⟨0, 0, 0⟩ ∧
      (frame P (s, cs)).1.carUpV = ⟨0, 0, 0⟩ ∧
      (frame P (s, cs)).1.carPos
        = ⟨(P (t1of (jsMod1 (s.progress + s.velocity)))).x,
           (P (t1of (jsMod1 (s.progress + s.velocity)))).y + 0.2,
           (P (t1of (jsMod1 (s.progress + s.velocity)))).z⟩) ∧
    (∀ n : ℕ, MIN_VELOCITY ≤ (advance P (n + 1) (s, cs)).1.velocity ∧
      (advance P (n + 1) (s, cs)).1.velocity ≤ MAX_VELOCITY) := by
  have htan : tangentOf P (jsMod1 (s.progress + s.velocity)) = ⟨0, 0, 0⟩ := by
    show Vec3.normalize (Vec3.sub (P (t2of (jsMod1 (s.progress + s.velocity))))
        (P (t1of (jsMod1 (s.progress + s.velocity))))) = ⟨0, 0, 0⟩
    rw [hdeg, (Vec3.sub_eq_zero_iff _ _).mpr rfl]
    exact Vec3.normalize_zero
  have hcam := frame_camera P (s, cs)
  refine ⟨htan, ?_, ?_, ?_, fun n => frame_velocity_band P (advance P n (s, cs))⟩
  · rw [hcam.1]
    show withMouseX (camBase P (jsMod1 (s.progress + s.velocity))) s.mouseX = _
    ext <;> simp [camBase, withMouseX, Vec3.add, Vec3.multiplyScalar, htan]
  · rw [hcam.2]
    show lookTarget P (jsMod1 (s.progress + s.velocity)) = _
    ext <;> simp [lookTarget, Vec3.add, Vec3.multiplyScalar, htan]
  · intro hload
    have ha : (updateCameraPosition P s cs).1.carLoaded = true := hload
    have he := updateCarPosition_eq_true P (updateCameraPosition P s cs).1
      (updateCameraPosition P s cs).2 ha
    have hforward : (frame P (s, cs)).1.carForward
        = forwardOf P (jsMod1 (s.progress + s.velocity)) := by
      calc (frame P (s, cs)).1.carForward
          = (updateCarPosition P (updateCameraPosition P s cs).1
              (updateCameraPosition P s cs).2).1.carForward := rfl
        _ = forwardOf P (updateCameraPosition P s cs).1.progress := by rw [he]
        _ = forwardOf P (jsMod1 (s.progress + s.velocity)) := rfl
    have hfz : forwardOf P (jsMod1 (s.progress + s.velocity)) = ⟨0, 0, 0⟩ := by
      show Vec3.normalize (tangentOf P (jsMod1 (s.progress + s.velocity))) = ⟨0, 0, 0⟩
      rw [htan]
      exact Vec3.normalize_zero
    have hright : (frame P (s, cs)).1.carRight
        = rightOf P (jsMod1 (s.progress + s.velocity)) := by
      calc (frame P (s, cs)).1.carRight
          = (updateCarPosition P (updateCameraPosition P s cs).1
              (updateCameraPosition P s cs).2).1.carRight := rfl
        _ = rightOf P (updateCameraPosition P s cs).1.progress := by rw [he]
        _ = rightOf P (jsMod1 (s.progress + s.velocity)) := rfl
    have hrz : rightOf P (jsMod1 (s.progress + s.velocity)) = ⟨0, 0, 0⟩ := by
      show Vec3.normalize (Vec3.cross ⟨0, 1, 0⟩
          (forwardOf P (jsMod1 (s.progress + s.velocity)))) = ⟨0, 0, 0⟩
      rw [hfz, Vec3.cross_zero_right]
      exact Vec3.normalize_zero
    have hup : (frame P (s, cs)).1.carUpV
        = carUpOf P (jsMod1 (s.progress + s.velocity)) := by
      calc (frame P (s, cs)).1.carUpV
          = (updateCarPosition P (updateCameraPosition P s cs).1
              (updateCameraPosition P s cs).2).1.carUpV := rfl
        _ = carUpOf P (updateCameraPosition P s cs).1.progress := by rw [he]
        _ = carUpOf P (jsMod1 (s.progress + s.velocity)) := rfl
    have huz : carUpOf P (jsMod1 (s.progress + s.velocity)) = ⟨0, 0, 0⟩ := by
      show Vec3.normalize (Vec3.cross (forwardOf P (jsMod1 (s.progress + s.velocity)))
          (rightOf P (jsMod1 (s.progress + s.velocity)))) = ⟨0, 0, 0⟩
      rw [hfz, Vec3.cross_zero_left]
      exact Vec3.normalize_zero
    have hpos : (frame P (s, cs)).1.carPos
        = ⟨(P (t1of (jsMod1 (s.progress + s.velocity)))).x,
           (P (t1of (jsMod1 (s.progress + s.velocity)))).y + 0.2,
           (P (t1of (jsMod1 (s.progress + s.velocity)))).z⟩ := by
      calc (frame P (s, cs)).1.carPos
          = (updateCarPosition P (updateCameraPosition P s cs).1
              (updateCameraPosition P s cs).2).1.carPos := rfl
        _ = ⟨(P (t1of (updateCameraPosition P s cs).1.progress)).x,
             (P (t1of (updateCameraPosition P s cs).1.progress)).y + 0.2,
             (P (t1of (updateCameraPosition P s cs).1.progress)).z⟩ := by rw [he]
        _ = _ := rfl
    exact ⟨hforward.trans hfz, hright.trans hrz, hup.trans huz, hpos⟩

/-- Synthetic path whose tangent is exactly zero everywhere. -/
def zeroPath : ℝ → Vec3 := fun _ => ⟨0, 0, 0⟩

theorem degenerate_C6_witness :
    (zeroPath (t2of (jsMod1 (cexSimCar.progress + cexSimCar.velocity)))
      = zeroPath (t1of (jsMod1 (cexSimCar.progress + cexSimCar.velocity)))) ∧
    (tangentOf zeroPath (jsMod1 (cexSimCar.progress + cexSimCar.velocity)) = ⟨0, 0, 0⟩ ∧
    (frame zeroPath (cexSimCar, csZero)).1.camPos
      = ⟨(zeroPath (t1of (jsMod1 (cexSimCar.progress + cexSimCar.velocity)))).x
          + (cexSimCar.mouseX - 0.5) * 20,
         (zeroPath (t1of (jsMod1 (cexSimCar.progress + cexSimCar.velocity)))).y + 1,
         (zeroPath (t1of (jsMod1 (cexSimCar.progress + cexSimCar.velocity)))).z⟩ ∧
    (frame zeroPath (cexSimCar, csZero)).1.camLook
      = zeroPath (t1of (jsMod1 (cexSimCar.progress + cexSimCar.velocity))) ∧
    (cexSimCar.carLoaded = true →
      (frame zeroPath (cexSimCar, csZero)).1.carForward = ⟨0, 0, 0⟩ ∧
      (frame zeroPath (cexSimCar, csZero)).1.carRight = ⟨0, 0, 0⟩ ∧
      (frame zeroPath (cexSimCar, csZero)).1.carUpV = ⟨0, 0, 0⟩ ∧
      (frame zeroPath (cexSimCar, csZero)).1.carPos
        = ⟨(zeroPath (t1of (jsMod1 (cexSimCar.progress + cexSimCar.velocity)))).x,
           (zeroPath (t1of (jsMod1 (cexSimCar.progress + cexSimCar.velocity)))).y + 0.2,
           (zeroPath (t1of (jsMod1 (cexSimCar.progress + cexSimCar.velocity)))).z⟩) ∧
    (∀ n : ℕ,
      MIN_VELOCITY ≤ (advance zeroPath (n + 1) (cexSimCar, csZero)).1.velocity ∧
      (advance zeroPath (n + 1) (cexSimCar, csZero)).1.velocity ≤ MAX_VELOCITY)) :=
  ⟨rfl, degenerate_C6 zeroPath cexSimCar csZero rfl⟩
